import Mathlib

/-!
Verification of the NUTS sampler core of this repository
(src/nuts.rs, src/cpu_potential.rs, src/cpu_sampler.rs).

The trajectory state, the divergence payload and the rng state are kept
abstract (the State, Potential and rand traits of nuts.rs are records of
operations), while every piece of control flow of the Rust functions is
embedded verbatim.  f64 scalars are modelled by the inductive type F64:
finite values are exact rationals and the special values inf, neginf and
nan are explicit constructors, with IEEE comparison semantics (every
comparison involving nan is false).  Collector callbacks are modelled as
an event list returned alongside each result, in emission order.
-/

/-- Model of an f64 scalar: exact finite values plus the IEEE special
values.  Only the operations the sampler control flow uses are defined. -/
inductive F64 where
  | finite (q : ℚ)
  | inf
  | neginf
  | nan
deriving DecidableEq

namespace F64

/-- IEEE negation. -/
def neg : F64 → F64
  | finite q => finite (-q)
  | inf => neginf
  | neginf => inf
  | nan => nan

/-- IEEE subtraction (inf - inf and anything involving nan give nan). -/
def sub : F64 → F64 → F64
  | nan, _ => nan
  | finite a, finite b => finite (a - b)
  | finite _, inf => neginf
  | finite _, neginf => inf
  | inf, finite _ => inf
  | inf, inf => nan
  | inf, neginf => inf
  | neginf, finite _ => neginf
  | neginf, inf => neginf
  | neginf, neginf => nan
  | _, nan => nan

/-- IEEE absolute value. -/
def abs : F64 → F64
  | finite q => finite |q|
  | nan => nan
  | _ => inf

/-- IEEE strict greater-than: false whenever either side is nan. -/
def fgt : F64 → F64 → Bool
  | nan, _ => false
  | inf, inf => false
  | inf, nan => false
  | inf, _ => true
  | neginf, _ => false
  | finite _, inf => false
  | finite _, neginf => true
  | finite a, finite b => decide (b < a)
  | finite _, nan => false

/-- f64::min as Rust defines it: if one operand is nan the other one is
returned. -/
def fmin : F64 → F64 → F64
  | nan, b => b
  | neginf, _ => neginf
  | finite _, neginf => neginf
  | inf, neginf => neginf
  | inf, b => b
  | finite a, nan => finite a
  | finite a, inf => finite a
  | finite a, finite b => finite (min a b)

/-- f64::is_finite. -/
def isFinite : F64 → Bool
  | finite _ => true
  | _ => false

/-- Multiplication by (sign as f64) where sign is -1 or 1; IEEE
multiplication by these two values is exact, so it reduces to identity
or negation. -/
def signMul (sign : Int) (x : F64) : F64 :=
  if sign < 0 then x.neg else x

end F64

/-- The two trajectory directions (nuts.rs, enum Direction). -/
inductive Direction where
  | Forward
  | Backward
deriving DecidableEq

/-- The sign computed from the direction at the top of leapfrog
(nuts.rs lines 103-106). -/
def dirSign : Direction → Int
  | .Forward => 1
  | .Backward => -1

/-- nuts.rs, struct NutsOptions.  The u64 maxdepth is modelled as Nat. -/
structure NutsOptions where
  maxdepth : Nat
  step_size : F64
  max_energy_error : F64
deriving DecidableEq

/-- nuts.rs, struct SampleInfo, generic over the divergence payload
(a boxed trait object in the source). -/
structure SampleInfo (D : Type) where
  depth : Nat
  divergence_info : Option D
  maxdepth : Bool
deriving DecidableEq

/-- One collector callback (trait Collector of nuts.rs): the three hooks
register_init, register_leapfrog and register_draw, in the order the
algorithm fires them. -/
inductive Event (S D : Type) where
  | init (state : S) (options : NutsOptions)
  | leapfrog (start stop : S) (divergence_info : Option D)
  | draw (state : S) (info : SampleInfo D)
deriving DecidableEq

/-- The operations of the State and Potential traits of nuts.rs together
with the rng operations and the math kernels the algorithm calls.  The
trajectory state S, the divergence payload D and the rng state R are
abstract; each field embeds one trait method.  The in-place mutating
methods of the source become functions returning the updated state. -/
structure Ctx (S D R : Type) where
  new_empty : S
  energy : S → F64
  is_turning : S → S → Bool
  first_momentum_halfstep : S → S → F64 → S
  position_step : S → S → F64 → S
  second_momentum_halfstep : S → F64 → S
  set_psum : S → S → Direction → S
  index_in_trajectory : S → Int
  set_index_in_trajectory : S → Int → S
  update_potential_gradient : S → S × Option D
  update_velocity : S → S
  update_kinetic_energy : S → S
  new_divergence_info : S → S → F64 → D
  gen_direction : R → Direction × R
  gen_bool : F64 → R → Bool × R
  logaddexp : F64 → F64 → F64
  fexp : F64 → F64

variable {S D R : Type}

/-- State::log_acceptance_probability of nuts.rs:
(initial_energy - self.energy()).min(0.). -/
def log_acceptance_probability (energy initial_energy : F64) : F64 :=
  F64.fmin (F64.sub initial_energy energy) (.finite 0)

/-- The free function leapfrog of nuts.rs (lines 92-139).  Returns the
result (the LeapfrogInfo unit payload is dropped) together with the
collector events it emits. -/
def leapfrog (ctx : Ctx S D R) (start : S) (dir : Direction) (initial_energy : F64)
    (options : NutsOptions) : Except D S × List (Event S D) :=
  let out := ctx.new_empty
  let sign := dirSign dir
  let epsilon := F64.signMul sign options.step_size
  let out := ctx.first_momentum_halfstep start out epsilon
  let out := ctx.update_velocity out
  let out := ctx.position_step start out epsilon
  match ctx.update_potential_gradient out with
  | (out, some div_info) =>
    (.error div_info, [.leapfrog start out (some div_info)])
  | (out, none) =>
    let out := ctx.second_momentum_halfstep out epsilon
    let out := ctx.update_velocity out
    let out := ctx.update_kinetic_energy out
    let out := ctx.set_index_in_trajectory out (ctx.index_in_trajectory start + sign)
    let out := ctx.set_psum start out dir
    let energy_error := F64.sub (ctx.energy out) initial_energy
    if F64.fgt energy_error.abs options.max_energy_error then
      let divergence_info := ctx.new_divergence_info start out energy_error
      (.error divergence_info, [.leapfrog start out (some divergence_info)])
    else
      (.ok out, [.leapfrog start out none])

/-- nuts.rs, struct NutsTree (the PhantomData collector marker is
dropped). -/
structure NutsTree (S : Type) where
  left : S
  right : S
  draw : S
  log_size : F64
  depth : Nat
  initial_energy : F64
deriving DecidableEq

/-- NutsTree::new of nuts.rs. -/
def NutsTree.new (ctx : Ctx S D R) (state : S) : NutsTree S :=
  { right := state
    left := state
    draw := state
    depth := 0
    log_size := .finite 0
    initial_energy := ctx.energy state }

/-- nuts.rs, enum ExtendResult. -/
inductive ExtendResult (S D : Type) where
  | Ok (tree : NutsTree S)
  | Turning (tree : NutsTree S)
  | Diverging (tree : NutsTree S) (info : D)
deriving DecidableEq

/-- NutsTree::single_step of nuts.rs (lines 256-291). -/
def single_step (ctx : Ctx S D R) (t : NutsTree S) (direction : Direction)
    (options : NutsOptions) : Except D (NutsTree S) × List (Event S D) :=
  let start := match direction with
    | .Forward => t.right
    | .Backward => t.left
  match leapfrog ctx start direction t.initial_energy options with
  | (.error divergence_info, evs) => (.error divergence_info, evs)
  | (.ok stop, evs) =>
    (.ok { right := stop
           left := stop
           draw := stop
           depth := 0
           log_size := log_acceptance_probability (ctx.energy stop) t.initial_energy
           initial_energy := t.initial_energy }, evs)

/-- NutsTree::merge_into of nuts.rs (lines 231-254).  The assert on the
depths is modelled by returning none exactly when it would panic. -/
def merge_into (ctx : Ctx S D R) (tself other : NutsTree S) (r : R)
    (direction : Direction) : Option (NutsTree S × R) :=
  if tself.depth = other.depth then
    let tself := match direction with
      | .Forward => { tself with right := other.right }
      | .Backward => { tself with left := other.left }
    let dr : S × R :=
      if F64.fgt other.log_size tself.log_size then (other.draw, r)
      else
        let br := ctx.gen_bool (ctx.fexp (F64.sub other.log_size tself.log_size)) r
        (if br.1 then other.draw else tself.draw, br.2)
    some ({ tself with
            draw := dr.1
            depth := tself.depth + 1
            log_size := ctx.logaddexp tself.log_size other.log_size }, dr.2)
  else none

/-- Result of one call to NutsTree::extend: either an ExtendResult with
the final rng state and the events emitted, or the panic of the assert
inside merge_into. -/
inductive MRes (S D R : Type) where
  | ok (res : ExtendResult S D) (r : R) (evs : List (Event S D))
  | panicked
deriving DecidableEq

/-- Prepends earlier events to a result. -/
def MRes.prepend (evs : List (Event S D)) : MRes S D R → MRes S D R
  | .ok res r evs2 => .ok res r (evs ++ evs2)
  | .panicked => .panicked

/-- The three U-turn checks of NutsTree::extend (nuts.rs lines 209-220),
evaluated before the merge on the pre-merge boundary states. -/
def uturnFlag (ctx : Ctx S D R) (tself other : NutsTree S) (direction : Direction) : Bool :=
  let fl : S × S := match direction with
    | .Forward => (tself.left, other.right)
    | .Backward => (other.left, tself.right)
  let turning := ctx.is_turning fl.1 fl.2
  let turning := if !turning && decide (1 < tself.depth) then
      ctx.is_turning tself.right other.right
    else turning
  if !turning && decide (1 < tself.depth) then
    ctx.is_turning tself.left other.left
  else turning

/-- NutsTree::extend of nuts.rs (lines 178-229), including its inner
while loop, with an explicit fuel bound on the recursion depth (the
model returns none when the fuel runs out; every theorem below is
stated for runs that complete).  The phase argument merges the two
positions of control: none is the entry of extend (the single_step is
still to be done), some other is the head of the while loop with
other the subtree built so far on the extension side. -/
def extendAux (ctx : Ctx S D R) :
    Nat → NutsTree S → Option (NutsTree S) → R → Direction → NutsOptions →
    Option (MRes S D R)
  | 0, _, _, _, _, _ => none
  | fuel + 1, tself, none, r, direction, options =>
    match single_step ctx tself direction options with
    | (.error info, evs) => some (.ok (.Diverging tself info) r evs)
    | (.ok other, evs) =>
      (extendAux ctx fuel tself (some other) r direction options).map (MRes.prepend evs)
  | fuel + 1, tself, some other, r, direction, options =>
    if other.depth < tself.depth then
      match extendAux ctx fuel other none r direction options with
      | none => none
      | some .panicked => some .panicked
      | some (.ok (.Ok tree) r2 evs) =>
        (extendAux ctx fuel tself (some tree) r2 direction options).map (MRes.prepend evs)
      | some (.ok (.Turning _) r2 evs) => some (.ok (.Turning tself) r2 evs)
      | some (.ok (.Diverging _ info) r2 evs) => some (.ok (.Diverging tself info) r2 evs)
    else
      match merge_into ctx tself other r direction with
      | none => some .panicked
      | some (merged, r2) =>
        some (.ok (if uturnFlag ctx tself other direction then .Turning merged
          else .Ok merged) r2 [])

/-- NutsTree::extend of nuts.rs: entry point of the recursion. -/
def extend (ctx : Ctx S D R) (fuel : Nat) (tself : NutsTree S) (r : R)
    (direction : Direction) (options : NutsOptions) : Option (MRes S D R) :=
  extendAux ctx fuel tself none r direction options

/-- NutsTree::info of nuts.rs (lines 293-303). -/
def NutsTree.info (t : NutsTree S) (maxdepth : Bool) (divergence_info : Option D) :
    SampleInfo D :=
  { depth := t.depth, divergence_info := divergence_info, maxdepth := maxdepth }

/-- Result of the draw driver: the selected state, the SampleInfo, the
final rng state and the collector events, or the propagated panic. -/
inductive DrawRes (S D R : Type) where
  | done (state : S) (info : SampleInfo D) (r : R) (evs : List (Event S D))
  | panicked
deriving DecidableEq

/-- Prepends earlier events to a draw result. -/
def DrawRes.prepend (evs : List (Event S D)) : DrawRes S D R → DrawRes S D R
  | .done s i r evs2 => .done s i r (evs ++ evs2)
  | .panicked => .panicked

/-- The while loop of the draw driver of nuts.rs (lines 328-346). -/
def drawLoop (ctx : Ctx S D R) :
    Nat → NutsTree S → R → NutsOptions → Option (DrawRes S D R)
  | 0, _, _, _ => none
  | fuel + 1, tree, r, options =>
    if tree.depth < options.maxdepth then
      let dr := ctx.gen_direction r
      match extend ctx (fuel + 1) tree dr.2 dr.1 options with
      | none => none
      | some .panicked => some .panicked
      | some (.ok (.Ok tree2) r2 evs) =>
        (drawLoop ctx fuel tree2 r2 options).map (DrawRes.prepend evs)
      | some (.ok (.Turning tree2) r2 evs) =>
        let info := tree2.info false none
        some (.done tree2.draw info r2 (evs ++ [.draw tree2.draw info]))
      | some (.ok (.Diverging tree2 dinfo) r2 evs) =>
        let info := tree2.info false (some dinfo)
        some (.done tree2.draw info r2 (evs ++ [.draw tree2.draw info]))
    else
      some (.done tree.draw (tree.info true none) r [])

/-- The free function draw of nuts.rs (lines 312-347): fires
register_init, builds the initial tree and runs the loop.  Note that on
the Turning and Diverging exits the loop fires register_draw, while the
depth-cap exit (lines 345-346 of the source) returns without firing
register_draw. -/
def draw (ctx : Ctx S D R) (fuel : Nat) (init : S) (r : R) (options : NutsOptions) :
    Option (DrawRes S D R) :=
  match drawLoop ctx fuel (NutsTree.new ctx init) r options with
  | none => none
  | some .panicked => some .panicked
  | some (.done s i r2 evs) => some (.done s i r2 (.init init options :: evs))

/-- True on register_leapfrog events. -/
def Event.isLeapfrog : Event S D → Bool
  | .leapfrog _ _ _ => true
  | _ => false

/-- True on register_leapfrog events that carry a divergence. -/
def Event.isDivergent : Event S D → Bool
  | .leapfrog _ _ (some _) => true
  | _ => false

/-- True on register_draw events. -/
def Event.isDraw : Event S D → Bool
  | .draw _ _ => true
  | _ => false

/-- Number of register_leapfrog calls in an event list. -/
def countLeapfrog (evs : List (Event S D)) : Nat :=
  (evs.filter Event.isLeapfrog).length

/-!
The cpu_potential.rs side: the newer revision of the crate, in which the
Hamiltonian (EuclideanPotential) owns step_size and max_energy_error,
distinguishes recoverable from non-recoverable logp failures, and builds
the DivergenceInfoImpl record itself.
-/

/-- cpu_potential.rs, struct DivergenceInfoImpl.  The InnerState payloads
stay abstract; the field end of the source is spelled endState. -/
structure DivergenceInfoImpl (E S : Type) where
  logp_function_error : Option E
  start : Option S
  endState : Option S
  energy_error : Option F64
deriving DecidableEq

/-- The NutsError enum of the newer nuts.rs revision that
cpu_potential.rs imports (only the variant it constructs). -/
inductive NutsError (E : Type) where
  | LogpFailure (err : E)
deriving DecidableEq

/-- The operations EuclideanPotential::leapfrog calls: the state and
mass-matrix operations of cpu_state.rs and mass_matrix.rs (missing from
src/), the logp function behind update_potential_gradient with its
recoverable flag, and the rng and math operations used by the
surrounding driver.  E is the logp error type. -/
structure HamCtx (S E R : Type) where
  new_state : S
  energy : S → F64
  is_turning : S → S → Bool
  first_momentum_halfstep : S → S → F64 → S
  position_step : S → S → F64 → S
  second_momentum_halfstep : S → F64 → S
  set_psum : S → S → Direction → S
  index_in_trajectory : S → Int
  set_index_in_trajectory : S → Int → S
  update_potential_gradient : S → S × Option E
  is_recoverable : E → Bool
  update_velocity : S → S
  update_kinetic_energy : S → S
  clone_inner : S → S
  gen_direction : R → Direction × R
  gen_bool : F64 → R → Bool × R
  logaddexp : F64 → F64 → F64
  fexp : F64 → F64

variable {E : Type}

/-- EuclideanPotential::leapfrog of cpu_potential.rs (lines 87-149).
The outer Except is the fatal NutsError channel, the inner Except is the
per-step divergence channel.  step_size and max_energy_error are the
fields of the EuclideanPotential struct. -/
def EuclideanPotential.leapfrog (ctx : HamCtx S E R) (step_size max_energy_error : F64)
    (start : S) (dir : Direction) (initial_energy : F64) :
    Except (NutsError E) (Except (DivergenceInfoImpl E S) S) ×
      List (Event S (DivergenceInfoImpl E S)) :=
  let out := ctx.new_state
  let sign := dirSign dir
  let epsilon := F64.signMul sign step_size
  let out := ctx.first_momentum_halfstep start out epsilon
  let out := ctx.update_velocity out
  let out := ctx.position_step start out epsilon
  match ctx.update_potential_gradient out with
  | (out, some logp_error) =>
    if !ctx.is_recoverable logp_error then
      (.error (.LogpFailure logp_error), [])
    else
      let div_info : DivergenceInfoImpl E S :=
        { logp_function_error := some logp_error
          start := some (ctx.clone_inner start)
          endState := none
          energy_error := none }
      (.ok (.error div_info), [.leapfrog start out (some div_info)])
  | (out, none) =>
    let out := ctx.second_momentum_halfstep out epsilon
    let out := ctx.update_velocity out
    let out := ctx.update_kinetic_energy out
    let out := ctx.set_index_in_trajectory out (ctx.index_in_trajectory start + sign)
    let out := ctx.set_psum start out dir
    let energy_error := F64.sub (ctx.energy out) initial_energy
    if F64.fgt energy_error.abs max_energy_error || !energy_error.isFinite then
      let divergence_info : DivergenceInfoImpl E S :=
        { logp_function_error := none
          start := some (ctx.clone_inner start)
          endState := some (ctx.clone_inner out)
          energy_error := some energy_error }
      (.ok (.error divergence_info), [.leapfrog start out (some divergence_info)])
    else
      (.ok (.ok out), [.leapfrog start out none])

/-- Modelled from the spec: result of one extend of the newer driver
revision (the nuts.rs revision with the NutsError channel is missing
from src/); like MRes but with the fatal channel of spec section 7
instead of the assert panic. -/
inductive MResH (S E R : Type) where
  | ok (res : ExtendResult S (DivergenceInfoImpl E S)) (r : R)
      (evs : List (Event S (DivergenceInfoImpl E S)))
  | fatal (err : NutsError E)
deriving DecidableEq

/-- Prepends earlier events to a result of the newer driver. -/
def MResH.prepend (evs : List (Event S (DivergenceInfoImpl E S))) :
    MResH S E R → MResH S E R
  | .ok res r evs2 => .ok res r (evs ++ evs2)
  | .fatal e => .fatal e

/-- Modelled from the spec (section 4.5.2): the single step of the newer
driver, delegating to EuclideanPotential::leapfrog; a fatal error is
passed through, a divergence is returned upward. -/
def single_stepH (ctx : HamCtx S E R) (t : NutsTree S) (direction : Direction)
    (options : NutsOptions) :
    Except (NutsError E) (Except (DivergenceInfoImpl E S) (NutsTree S)) ×
      List (Event S (DivergenceInfoImpl E S)) :=
  let start := match direction with
    | .Forward => t.right
    | .Backward => t.left
  match EuclideanPotential.leapfrog ctx options.step_size options.max_energy_error
      start direction t.initial_energy with
  | (.error e, evs) => (.error e, evs)
  | (.ok (.error d), evs) => (.ok (.error d), evs)
  | (.ok (.ok stop), evs) =>
    (.ok (.ok { right := stop
                left := stop
                draw := stop
                depth := 0
                log_size := log_acceptance_probability (ctx.energy stop) t.initial_energy
                initial_energy := t.initial_energy }), evs)

/-- Modelled from the spec (section 4.5.3 step 4): the merge of the newer
driver, identical to merge_into of nuts.rs. -/
def merge_intoH (ctx : HamCtx S E R) (tself other : NutsTree S) (r : R)
    (direction : Direction) : NutsTree S × R :=
  let tself2 := match direction with
    | .Forward => { tself with right := other.right }
    | .Backward => { tself with left := other.left }
  let dr : S × R :=
    if F64.fgt other.log_size tself2.log_size then (other.draw, r)
    else
      let br := ctx.gen_bool (ctx.fexp (F64.sub other.log_size tself2.log_size)) r
      (if br.1 then other.draw else tself2.draw, br.2)
  ({ tself2 with
     draw := dr.1
     depth := tself2.depth + 1
     log_size := ctx.logaddexp tself2.log_size other.log_size }, dr.2)

/-- Modelled from the spec (section 4.5.3 step 3): the U-turn checks of
the newer driver, identical to uturnFlag. -/
def uturnFlagH (ctx : HamCtx S E R) (tself other : NutsTree S) (direction : Direction) : Bool :=
  let fl : S × S := match direction with
    | .Forward => (tself.left, other.right)
    | .Backward => (other.left, tself.right)
  let turning := ctx.is_turning fl.1 fl.2
  let turning := if !turning && decide (1 < tself.depth) then
      ctx.is_turning tself.right other.right
    else turning
  if !turning && decide (1 < tself.depth) then
    ctx.is_turning tself.left other.left
  else turning

/-- Modelled from the spec (section 4.5.3): recursive doubling of the
newer driver, mirroring extendAux with fatal logp errors propagated
upward; same fuel discipline and phase encoding as extendAux. -/
def extendAuxH (ctx : HamCtx S E R) :
    Nat → NutsTree S → Option (NutsTree S) → R → Direction → NutsOptions →
    Option (MResH S E R)
  | 0, _, _, _, _, _ => none
  | fuel + 1, tself, none, r, direction, options =>
    match single_stepH ctx tself direction options with
    | (.error e, _) => some (.fatal e)
    | (.ok (.error info), evs) => some (.ok (.Diverging tself info) r evs)
    | (.ok (.ok other), evs) =>
      (extendAuxH ctx fuel tself (some other) r direction options).map (MResH.prepend evs)
  | fuel + 1, tself, some other, r, direction, options =>
    if other.depth < tself.depth then
      match extendAuxH ctx fuel other none r direction options with
      | none => none
      | some (.fatal e) => some (.fatal e)
      | some (.ok (.Ok tree) r2 evs) =>
        (extendAuxH ctx fuel tself (some tree) r2 direction options).map (MResH.prepend evs)
      | some (.ok (.Turning _) r2 evs) => some (.ok (.Turning tself) r2 evs)
      | some (.ok (.Diverging _ info) r2 evs) => some (.ok (.Diverging tself info) r2 evs)
    else
      let mr := merge_intoH ctx tself other r direction
      some (.ok (if uturnFlagH ctx tself other direction then .Turning mr.1
        else .Ok mr.1) mr.2 [])

/-- Modelled from the spec: result of a draw of the newer driver: a
sample, or the propagated fatal logp error of spec section 7 (no sample
is returned in that case). -/
inductive DrawResH (S E R : Type) where
  | done (state : S) (info : SampleInfo (DivergenceInfoImpl E S)) (r : R)
      (evs : List (Event S (DivergenceInfoImpl E S)))
  | fatal (err : NutsError E)
deriving DecidableEq

/-- Prepends earlier events to a draw result of the newer driver. -/
def DrawResH.prepend (evs : List (Event S (DivergenceInfoImpl E S))) :
    DrawResH S E R → DrawResH S E R
  | .done s i r evs2 => .done s i r (evs ++ evs2)
  | .fatal e => .fatal e

/-- Modelled from the spec (section 4.6): the loop of the newer draw
driver; identical to drawLoop except that fatal errors propagate. -/
def drawLoopH (ctx : HamCtx S E R) :
    Nat → NutsTree S → R → NutsOptions → Option (DrawResH S E R)
  | 0, _, _, _ => none
  | fuel + 1, tree, r, options =>
    if tree.depth < options.maxdepth then
      let dr := ctx.gen_direction r
      match extendAuxH ctx (fuel + 1) tree none dr.2 dr.1 options with
      | none => none
      | some (.fatal e) => some (.fatal e)
      | some (.ok (.Ok tree2) r2 evs) =>
        (drawLoopH ctx fuel tree2 r2 options).map (DrawResH.prepend evs)
      | some (.ok (.Turning tree2) r2 evs) =>
        let info := tree2.info false none
        some (.done tree2.draw info r2 (evs ++ [.draw tree2.draw info]))
      | some (.ok (.Diverging tree2 dinfo) r2 evs) =>
        let info := tree2.info false (some dinfo)
        some (.done tree2.draw info r2 (evs ++ [.draw tree2.draw info]))
    else
      some (.done tree.draw (tree.info true none) r [])

/-- Modelled from the spec (sections 4.6 and 7): the newer draw driver;
register_init first, then the loop; a non-recoverable logp failure
propagates out as a fatal sampler error and no sample is returned. -/
def drawH (ctx : HamCtx S E R) (fuel : Nat) (init : S) (r : R)
    (options : NutsOptions) : Option (DrawResH S E R) :=
  let tree : NutsTree S :=
    { right := init
      left := init
      draw := init
      depth := 0
      log_size := .finite 0
      initial_energy := ctx.energy init }
  match drawLoopH ctx fuel tree r options with
  | none => none
  | some (.fatal e) => some (.fatal e)
  | some (.done s i r2 evs) => some (.done s i r2 (.init init options :: evs))

/-!
Index laws and iterated leapfrog (claim C7), sampler facade (claim C8),
and concrete instantiations used by witnesses and counterexamples.
-/

/-- Modelled from the spec: the State implementation (cpu_state.rs) is
missing from src/; spec section 3 specifies idx_in_trajectory as a plain
signed integer field of InnerState, so writing it through
index_in_trajectory_mut and then reading it yields the written value,
and set_psum (which only touches p_sum) leaves it unchanged. -/
structure CtxIndexLaws (ctx : Ctx S D R) : Prop where
  index_set : ∀ s n, ctx.index_in_trajectory (ctx.set_index_in_trajectory s n) = n
  index_psum : ∀ a b d, ctx.index_in_trajectory (ctx.set_psum a b d) =
    ctx.index_in_trajectory b

/-- n successive leapfrog steps in one direction, all succeeding
(none if any step diverges). -/
def leapfrogChain (ctx : Ctx S D R) (dir : Direction) (initial_energy : F64)
    (options : NutsOptions) : Nat → S → Option S
  | 0, s => some s
  | n + 1, s =>
    match leapfrog ctx s dir initial_energy options with
    | (.ok out, _) => leapfrogChain ctx dir initial_energy options n out
    | (.error _, _) => none

/-- Modelled from the spec (section 6) and cpu_sampler.rs: the pieces of
the UnitStaticSampler facade whose implementations are missing from src/
(cpu_state.rs state construction, StdRng::seed_from_u64, the older
cpu_potential.rs Potential with the unit mass matrix): rng seeding,
the empty pool state, position write-in (set_position body), momentum
randomization, position read-out, and the max_energy_error that this
older revision does not take as an argument (spec default 1000). -/
structure SamplerOps (S D R : Type) where
  ctx : Ctx S D R
  seed_from_u64 : Nat → R
  fresh_state : S
  set_position_state : S → List F64 → S × Option D
  randomize_momentum : S → R → S × R
  write_position : S → List F64
  max_energy_error : F64

/-- Alias of the draw driver, usable where the plain name draw would
resolve to the method being defined. -/
def runDraw (ctx : Ctx S D R) (fuel : Nat) (init : S) (r : R)
    (options : NutsOptions) : Option (DrawRes S D R) :=
  draw ctx fuel init r options

/-- cpu_sampler.rs, struct UnitStaticSampler (the potential, pool and
collector live in the SamplerOps record; the collector stream is the
event list returned by draw). -/
structure UnitStaticSampler (S R : Type) where
  state : S
  maxdepth : Nat
  step_size : F64
  rng : R

/-- Fuel that is ample for every draw with the given depth cap. -/
def drawFuel (maxdepth : Nat) : Nat := 2 ^ (maxdepth + 2) + maxdepth + 2

/-- UnitStaticSampler::new of cpu_sampler.rs (lines 141-158). -/
def UnitStaticSampler.new (ops : SamplerOps S D R) (seed maxdepth : Nat)
    (step_size : F64) : UnitStaticSampler S R :=
  { state := ops.fresh_state
    maxdepth := maxdepth
    step_size := step_size
    rng := ops.seed_from_u64 seed }

/-- UnitStaticSampler::set_position of cpu_sampler.rs (lines 160-171):
writes the position and refreshes gradient and potential energy, failing
if logp fails. -/
def UnitStaticSampler.set_position (ops : SamplerOps S D R)
    (s : UnitStaticSampler S R) (position : List F64) :
    Option (UnitStaticSampler S R) :=
  match ops.set_position_state s.state position with
  | (st, none) => some { s with state := st }
  | (_, some _) => none

/-- UnitStaticSampler::draw of cpu_sampler.rs (lines 173-191):
randomizes the momentum, refreshes velocity and kinetic energy, runs the
nuts draw, stores the selected state and returns its position together
with the SampleInfo and the collector stream. -/
def UnitStaticSampler.draw (ops : SamplerOps S D R) (s : UnitStaticSampler S R) :
    Option (List F64 × SampleInfo D × UnitStaticSampler S R × List (Event S D)) :=
  let sr := ops.randomize_momentum s.state s.rng
  let st := ops.ctx.update_velocity sr.1
  let st := ops.ctx.update_kinetic_energy st
  let options : NutsOptions :=
    { maxdepth := s.maxdepth
      step_size := s.step_size
      max_energy_error := ops.max_energy_error }
  match runDraw ops.ctx (drawFuel s.maxdepth) st sr.2 options with
  | some (.done state info r2 evs) =>
    some (ops.write_position state, info, { s with state := state, rng := r2 }, evs)
  | _ => none

/-- A trivial context over unit state, unit divergence payload and unit
rng state: logp never fails, every energy is -inf (so every energy error
is nan and no step diverges under the nuts.rs check), no U-turns are
ever reported, directions are always Forward and gen_bool is always
false. -/
def ctxBase : Ctx Unit Unit Unit where
  new_empty := ()
  energy _ := .neginf
  is_turning _ _ := false
  first_momentum_halfstep _ out _ := out
  position_step _ out _ := out
  second_momentum_halfstep out _ := out
  set_psum _ out _ := out
  index_in_trajectory _ := 0
  set_index_in_trajectory out _ := out
  update_potential_gradient s := (s, none)
  update_velocity out := out
  update_kinetic_energy out := out
  new_divergence_info _ _ _ := ()
  gen_direction r := (.Forward, r)
  gen_bool _ r := (false, r)
  logaddexp _ _ := .finite 777
  fexp _ := .finite 1

/-- ctxBase with every pair of states reported as a U-turn. -/
def ctxTurn : Ctx Unit Unit Unit :=
  { ctxBase with is_turning := fun _ _ => true }

/-- ctxBase with infinite energy everywhere, so the energy error of each
step against an infinite initial energy is nan. -/
def ctxInf : Ctx Unit Unit Unit :=
  { ctxBase with energy := fun _ => F64.inf }

/-- ctxBase with a logp function that always fails (recoverably in the
sense of the old nuts.rs revision, where every leapfrog error is a
divergence). -/
def ctxFail : Ctx Unit Unit Unit :=
  { ctxBase with update_potential_gradient := fun s => (s, some ()) }

/-- Typical options: maxdepth 10, unit step size, max energy error
1000. -/
def optsA : NutsOptions := { maxdepth := 10, step_size := .finite 1, max_energy_error := .finite 1000 }

/-- Options with depth cap 1. -/
def optsB : NutsOptions := { maxdepth := 1, step_size := .finite 1, max_energy_error := .finite 1000 }

/-- Options with depth cap 2. -/
def optsC : NutsOptions := { maxdepth := 2, step_size := .finite 1, max_energy_error := .finite 1000 }

/-- A depth-1 tree over unit states, as the draw driver produces after
one successful doubling. -/
def treeOne : NutsTree Unit :=
  { left := ()
    right := ()
    draw := ()
    log_size := .finite 0
    depth := 1
    initial_energy := .neginf }

/-- A context over integer states that carry exactly the trajectory
index, satisfying the index laws of the spec. -/
def ctxIdx : Ctx Int Unit Unit where
  new_empty := 0
  energy _ := .neginf
  is_turning _ _ := false
  first_momentum_halfstep _ out _ := out
  position_step _ out _ := out
  second_momentum_halfstep out _ := out
  set_psum _ out _ := out
  index_in_trajectory s := s
  set_index_in_trajectory _ n := n
  update_potential_gradient s := (s, none)
  update_velocity out := out
  update_kinetic_energy out := out
  new_divergence_info _ _ _ := ()
  gen_direction r := (.Forward, r)
  gen_bool _ r := (false, r)
  logaddexp _ _ := .finite 777
  fexp _ := .finite 1

/-- A trivial Hamiltonian context: logp never fails, every energy is
-inf. -/
def hctxBase : HamCtx Unit Unit Unit where
  new_state := ()
  energy _ := .neginf
  is_turning _ _ := false
  first_momentum_halfstep _ out _ := out
  position_step _ out _ := out
  second_momentum_halfstep out _ := out
  set_psum _ out _ := out
  index_in_trajectory _ := 0
  set_index_in_trajectory out _ := out
  update_potential_gradient s := (s, none)
  is_recoverable _ := true
  update_velocity out := out
  update_kinetic_energy out := out
  clone_inner s := s
  gen_direction r := (.Forward, r)
  gen_bool _ r := (false, r)
  logaddexp _ _ := .finite 777
  fexp _ := .finite 1

/-- hctxBase with finite energy 5 everywhere, giving every step the
finite energy error 5 - E0. -/
def hctxE : HamCtx Unit Unit Unit :=
  { hctxBase with energy := fun _ => F64.finite 5 }

/-- hctxBase with a logp function that always fails recoverably. -/
def hctxRec : HamCtx Unit Unit Unit :=
  { hctxBase with update_potential_gradient := fun s => (s, some ()) }

/-- hctxBase with a logp function that always fails non-recoverably. -/
def hctxFatal : HamCtx Unit Unit Unit :=
  { hctxBase with
    update_potential_gradient := fun s => (s, some ())
    is_recoverable := fun _ => false }

/-- Leapfrog budget already spent before the phase of extendAux. -/
def phaseBound : Option (NutsTree S) → Nat
  | none => 0
  | some o => 2 ^ o.depth

/-- The DivergenceInfoImpl record built by EuclideanPotential::leapfrog
for a recoverable logp failure (cpu_potential.rs lines 112-117). -/
def logpFailDiv (ctx : HamCtx S E R) (e : E) (start : S) : DivergenceInfoImpl E S :=
  { logp_function_error := some e
    start := some (ctx.clone_inner start)
    endState := none
    energy_error := none }

/-!
Helper lemmas about leapfrog, single_step and merge_into.
-/

/-- A failing leapfrog emits exactly one register_leapfrog event carrying
its divergence. -/
theorem leapfrog_error_shape (ctx : Ctx S D R) {start : S} {dir : Direction}
    {E0 : F64} {options : NutsOptions} {d : D} {evs : List (Event S D)}
    (h : leapfrog ctx start dir E0 options = (.error d, evs)) :
    ∃ b, evs = [.leapfrog start b (some d)] := by
  simp only [leapfrog] at h
  split at h
  · injection h with h1 h2
    injection h1 with h1
    subst h1 h2
    exact ⟨_, rfl⟩
  · split at h
    · injection h with h1 h2
      injection h1 with h1
      subst h1 h2
      exact ⟨_, rfl⟩
    · injection h with h1 _
      exact absurd h1 (by simp)

/-- A successful leapfrog emits exactly one register_leapfrog event with
no divergence, ending at the returned state. -/
theorem leapfrog_ok_shape (ctx : Ctx S D R) {start : S} {dir : Direction}
    {E0 : F64} {options : NutsOptions} {out : S} {evs : List (Event S D)}
    (h : leapfrog ctx start dir E0 options = (.ok out, evs)) :
    evs = [.leapfrog start out none] := by
  simp only [leapfrog] at h
  split at h
  · injection h with h1 _
    exact absurd h1 (by simp)
  · split at h
    · injection h with h1 _
      exact absurd h1 (by simp)
    · injection h with h1 h2
      injection h1 with h1
      subst h1 h2
      rfl

/-- A successful leapfrog returns the state obtained by writing
start.idx_in_trajectory + sign and then the momentum sum (nuts.rs lines
124-126). -/
theorem leapfrog_ok_index (ctx : Ctx S D R) {start : S} {dir : Direction}
    {E0 : F64} {options : NutsOptions} {out : S} {evs : List (Event S D)}
    (h : leapfrog ctx start dir E0 options = (.ok out, evs)) :
    ∃ mid, out = ctx.set_psum start (ctx.set_index_in_trajectory mid
      (ctx.index_in_trajectory start + dirSign dir)) dir := by
  simp only [leapfrog] at h
  split at h
  · injection h with h1 _
    exact absurd h1 (by simp)
  · split at h
    · injection h with h1 _
      exact absurd h1 (by simp)
    · injection h with h1 _
      injection h1 with h1
      exact ⟨_, h1.symm⟩

/-- The depth-0 subtree built by a successful single_step. -/
theorem single_step_ok_depth (ctx : Ctx S D R) {t : NutsTree S}
    {direction : Direction} {options : NutsOptions} {other : NutsTree S}
    {evs : List (Event S D)}
    (h : single_step ctx t direction options = (.ok other, evs)) :
    other.depth = 0 := by
  simp only [single_step] at h
  split at h
  · injection h with h1 _
    exact absurd h1 (by simp)
  · injection h with h1 h2
    injection h1 with h1
    subst h1
    rfl

/-- A successful single_step emits exactly one non-divergent
register_leapfrog event. -/
theorem single_step_ok_events (ctx : Ctx S D R) {t : NutsTree S}
    {direction : Direction} {options : NutsOptions} {other : NutsTree S}
    {evs : List (Event S D)}
    (h : single_step ctx t direction options = (.ok other, evs)) :
    ∃ a b, evs = [.leapfrog a b none] := by
  simp only [single_step] at h
  split at h
  · injection h with h1 _
    exact absurd h1 (by simp)
  · next stop evs2 heq =>
    injection h with h1 h2
    subst h2
    exact ⟨_, _, leapfrog_ok_shape ctx heq⟩

/-- A failing single_step emits exactly one register_leapfrog event
carrying its divergence. -/
theorem single_step_error_events (ctx : Ctx S D R) {t : NutsTree S}
    {direction : Direction} {options : NutsOptions} {d : D}
    {evs : List (Event S D)}
    (h : single_step ctx t direction options = (.error d, evs)) :
    ∃ a b, evs = [.leapfrog a b (some d)] := by
  simp only [single_step] at h
  split at h
  · next d2 evs2 heq =>
    injection h with h1 h2
    injection h1 with h1
    subst h1 h2
    obtain ⟨b, hb⟩ := leapfrog_error_shape ctx heq
    exact ⟨_, _, hb⟩
  · injection h with h1 _
    exact absurd h1 (by simp)

/-- When the two depths agree, merge_into succeeds and performs the
merge accounting: depth + 1 and logaddexp of the two log sizes. -/
theorem merge_into_eq (ctx : Ctx S D R) {tself other : NutsTree S} (r : R)
    (direction : Direction) (h : tself.depth = other.depth) :
    ∃ t2 r2, merge_into ctx tself other r direction = some (t2, r2) ∧
      t2.depth = tself.depth + 1 ∧
      t2.log_size = ctx.logaddexp tself.log_size other.log_size ∧
      t2.initial_energy = tself.initial_energy := by
  unfold merge_into
  rw [if_pos h]
  cases direction
  · exact ⟨_, _, rfl, rfl, rfl, rfl⟩
  · exact ⟨_, _, rfl, rfl, rfl, rfl⟩

/-- Master structural facts about extend: with the loop invariant that
the subtree on the extension side is never deeper than the tree being
extended, extend never panics; a tree returned through Ok is one deeper
than the input; a tree returned through Turning is either the merged
tree (one deeper) or the input tree unchanged (when a nested extension
turned); a tree returned through Diverging is always the input tree
unchanged. -/
theorem extendAux_master (ctx : Ctx S D R) (fuel : Nat) :
    ∀ (tself : NutsTree S) (phase : Option (NutsTree S)) (r : R)
      (direction : Direction) (options : NutsOptions) (mres : MRes S D R),
      extendAux ctx fuel tself phase r direction options = some mres →
      (∀ o, phase = some o → o.depth ≤ tself.depth) →
      mres ≠ .panicked ∧
      (∀ res r2 evs, mres = .ok res r2 evs →
        (∀ t, res = .Ok t → t.depth = tself.depth + 1 ∧
          ∃ o, t.log_size = ctx.logaddexp tself.log_size o) ∧
        (∀ t, res = .Turning t → (t.depth = tself.depth + 1 ∧
          ∃ o, t.log_size = ctx.logaddexp tself.log_size o) ∨ t = tself) ∧
        (∀ t i, res = .Diverging t i → t = tself)) := by
  induction fuel with
  | zero =>
    intro tself phase r direction options mres h hph
    simp [extendAux] at h
  | succ fuel ih =>
    intro tself phase r direction options mres h hph
    cases phase with
    | none =>
      simp only [extendAux] at h
      split at h
      · -- single_step diverged
        injection h with h
        subst h
        refine ⟨by simp, ?_⟩
        intro res r2 evs hm
        cases hm
        refine ⟨?_, ?_, ?_⟩
        · intro t ht; cases ht
        · intro t ht; cases ht
        · intro t i ht; cases ht; rfl
      · -- single_step succeeded, enter the loop
        next other evs heq =>
        rw [Option.map_eq_some'] at h
        obtain ⟨m0, hm0, hpre⟩ := h
        have hd0 : other.depth = 0 := single_step_ok_depth ctx heq
        have H := ih tself (some other) r direction options m0 hm0
          (by intro o ho; injection ho with ho; subst ho; rw [hd0]; exact Nat.zero_le _)
        cases m0 with
        | panicked => exact absurd rfl H.1
        | ok res0 r0 evs0 =>
          subst hpre
          refine ⟨by simp [MRes.prepend], ?_⟩
          intro res r2 evs2 hm
          simp only [MRes.prepend] at hm
          injection hm with h1 _ _
          subst h1
          exact H.2 res0 r0 evs0 rfl
    | some other =>
      simp only [extendAux] at h
      split at h
      · -- other.depth < tself.depth: the while loop body
        next hlt =>
        split at h
        · cases h
        · -- nested extend panicked
          next heq =>
          have H := ih other none r direction options .panicked heq (by intro o ho; cases ho)
          exact absurd rfl H.1
        · -- nested extend returned Ok
          next tree r2 evs heq =>
          have H := ih other none r direction options _ heq (by intro o ho; cases ho)
          have hdep : tree.depth = other.depth + 1 :=
            ((H.2 _ _ _ rfl).1 tree rfl).1
          rw [Option.map_eq_some'] at h
          obtain ⟨m0, hm0, hpre⟩ := h
          have H2 := ih tself (some tree) r2 direction options m0 hm0
            (by intro o ho; injection ho with ho; subst ho; omega)
          cases m0 with
          | panicked => exact absurd rfl H2.1
          | ok res0 r0 evs0 =>
            subst hpre
            refine ⟨by simp [MRes.prepend], ?_⟩
            intro res r3 evs3 hm
            simp only [MRes.prepend] at hm
            injection hm with h1 _ _
            subst h1
            exact H2.2 res0 r0 evs0 rfl
        · -- nested extend turned: propagate with the tree unchanged
          injection h with h
          subst h
          refine ⟨by simp, ?_⟩
          intro res r2 evs2 hm
          cases hm
          refine ⟨?_, ?_, ?_⟩
          · intro t ht; cases ht
          · intro t ht; cases ht; exact Or.inr rfl
          · intro t i ht; cases ht
        · -- nested extend diverged: propagate with the tree unchanged
          injection h with h
          subst h
          refine ⟨by simp, ?_⟩
          intro res r2 evs2 hm
          cases hm
          refine ⟨?_, ?_, ?_⟩
          · intro t ht; cases ht
          · intro t ht; cases ht
          · intro t i ht; cases ht; rfl
      · -- loop exit: the U-turn checks and the merge
        next hnlt =>
        have hde : tself.depth = other.depth :=
          Nat.le_antisymm (Nat.not_lt.mp hnlt) (hph other rfl)
        obtain ⟨t2, r2, hm2, hd2, hl2, _⟩ := merge_into_eq ctx r direction hde
        split at h
        · next heq => rw [hm2] at heq; cases heq
        · next merged r3 heq =>
          rw [hm2] at heq
          injection heq with heq
          injection heq with he1 he2
          subst he1 he2
          split at h
          · -- the U-turn test fired: Turning(merged)
            injection h with h
            subst h
            refine ⟨by simp, ?_⟩
            intro res r4 evs4 hm
            injection hm with h1 _ _
            subst h1
            refine ⟨?_, ?_, ?_⟩
            · intro t ht; cases ht
            · intro t ht; cases ht; exact Or.inl ⟨hd2, ⟨other.log_size, hl2⟩⟩
            · intro t i ht; cases ht
          · -- no U-turn: Ok(merged)
            injection h with h
            subst h
            refine ⟨by simp, ?_⟩
            intro res r4 evs4 hm
            injection hm with h1 _ _
            subst h1
            refine ⟨?_, ?_, ?_⟩
            · intro t ht; cases ht; exact ⟨hd2, ⟨other.log_size, hl2⟩⟩
            · intro t ht; cases ht
            · intro t i ht; cases ht

/-- Every event emitted by extend is a register_leapfrog event, and a
run that does not end Diverging emits no divergent leapfrog event. -/
theorem extendAux_events (ctx : Ctx S D R) (fuel : Nat) :
    ∀ (tself : NutsTree S) (phase : Option (NutsTree S)) (r : R)
      (direction : Direction) (options : NutsOptions)
      (res : ExtendResult S D) (r2 : R) (evs : List (Event S D)),
      extendAux ctx fuel tself phase r direction options = some (.ok res r2 evs) →
      (∀ e ∈ evs, e.isLeapfrog = true) ∧
      (((∃ t, res = .Ok t) ∨ (∃ t, res = .Turning t)) →
        ∀ e ∈ evs, e.isDivergent = false) := by
  induction fuel with
  | zero =>
    intro tself phase r direction options res r2 evs h
    simp [extendAux] at h
  | succ fuel ih =>
    intro tself phase r direction options res r2 evs h
    cases phase with
    | none =>
      simp only [extendAux] at h
      split at h
      · next info evs0 heq =>
        injection h with h
        injection h with h1 h2 h3
        subst h1 h2 h3
        obtain ⟨a, b, hb⟩ := single_step_error_events ctx heq
        subst hb
        constructor
        · intro e he
          simp at he
          subst he
          rfl
        · rintro (⟨t, ht⟩ | ⟨t, ht⟩) <;> cases ht
      · next other evs0 heq =>
        rw [Option.map_eq_some'] at h
        obtain ⟨m0, hm0, hpre⟩ := h
        cases m0 with
        | panicked => cases hpre
        | ok res0 r0 evs1 =>
          simp only [MRes.prepend] at hpre
          injection hpre with h1 h2 h3
          subst h1 h2 h3
          obtain ⟨a, b, hb⟩ := single_step_ok_events ctx heq
          subst hb
          have H := ih tself (some other) r direction options res0 r0 evs1 hm0
          constructor
          · intro e he
            simp only [List.mem_append, List.mem_singleton] at he
            rcases he with he | he
            · subst he; rfl
            · exact H.1 e he
          · intro hres e he
            simp only [List.mem_append, List.mem_singleton] at he
            rcases he with he | he
            · subst he; rfl
            · exact H.2 hres e he
    | some other =>
      simp only [extendAux] at h
      split at h
      · split at h
        · cases h
        · cases h
        · next tree r3 evs0 heq =>
          rw [Option.map_eq_some'] at h
          obtain ⟨m0, hm0, hpre⟩ := h
          cases m0 with
          | panicked => cases hpre
          | ok res0 r0 evs1 =>
            simp only [MRes.prepend] at hpre
            injection hpre with h1 h2 h3
            subst h1 h2 h3
            have H0 := ih other none r direction options _ _ _ heq
            have H := ih tself (some tree) r3 direction options res0 _ _ hm0
            constructor
            · intro e he
              simp only [List.mem_append] at he
              rcases he with he | he
              · exact H0.1 e he
              · exact H.1 e he
            · intro hres e he
              simp only [List.mem_append] at he
              rcases he with he | he
              · exact H0.2 (Or.inl ⟨tree, rfl⟩) e he
              · exact H.2 hres e he
        · next t0 r3 evs0 heq =>
          injection h with h
          injection h with h1 h2 h3
          subst h1 h2 h3
          have H0 := ih other none r direction options _ _ _ heq
          exact ⟨H0.1, fun _ => H0.2 (Or.inr ⟨t0, rfl⟩)⟩
        · next t0 info r3 evs0 heq =>
          injection h with h
          injection h with h1 h2 h3
          subst h1 h2 h3
          have H0 := ih other none r direction options _ _ _ heq
          refine ⟨H0.1, ?_⟩
          rintro (⟨t, ht⟩ | ⟨t, ht⟩) <;> cases ht
      · split at h
        · cases h
        · next merged r3 heq =>
          split at h <;>
          · injection h with h
            injection h with h1 h2 h3
            subst h1 h2 h3
            exact ⟨(by intro e he; simp at he), (by intro _ e he; simp at he)⟩

/-- countLeapfrog distributes over append. -/
theorem countLeapfrog_append (a b : List (Event S D)) :
    countLeapfrog (a ++ b) = countLeapfrog a + countLeapfrog b := by
  simp [countLeapfrog, List.filter_append]

/-- The number of leapfrog steps of one extend: a full extend of a tree
of depth d performs at most 2 ^ d of them, and from the middle of the
loop with a subtree of depth k on the side at most 2 ^ d - 2 ^ k are
still to come. -/
theorem extendAux_count (ctx : Ctx S D R) (fuel : Nat) :
    ∀ (tself : NutsTree S) (phase : Option (NutsTree S)) (r : R)
      (direction : Direction) (options : NutsOptions)
      (res : ExtendResult S D) (r2 : R) (evs : List (Event S D)),
      extendAux ctx fuel tself phase r direction options = some (.ok res r2 evs) →
      (∀ o, phase = some o → o.depth ≤ tself.depth) →
      countLeapfrog evs ≤ 2 ^ tself.depth - phaseBound phase := by
  induction fuel with
  | zero =>
    intro tself phase r direction options res r2 evs h hph
    simp [extendAux] at h
  | succ fuel ih =>
    intro tself phase r direction options res r2 evs h hph
    cases phase with
    | none =>
      simp only [extendAux] at h
      split at h
      · next info evs0 heq =>
        injection h with h
        injection h with h1 h2 h3
        subst h3
        obtain ⟨a, b, hb⟩ := single_step_error_events ctx heq
        subst hb
        have : (1 : Nat) ≤ 2 ^ tself.depth := Nat.one_le_two_pow
        simpa [countLeapfrog, phaseBound] using this
      · next other evs0 heq =>
        rw [Option.map_eq_some'] at h
        obtain ⟨m0, hm0, hpre⟩ := h
        cases m0 with
        | panicked => cases hpre
        | ok res0 r0 evs1 =>
          simp only [MRes.prepend] at hpre
          injection hpre with h1 h2 h3
          subst h3
          have hd0 : other.depth = 0 := single_step_ok_depth ctx heq
          have H := ih tself (some other) r direction options res0 r0 evs1 hm0
            (by intro o ho; injection ho with ho; subst ho; rw [hd0]; exact Nat.zero_le _)
          simp only [phaseBound, hd0, pow_zero] at H
          obtain ⟨a, b, hb⟩ := single_step_ok_events ctx heq
          subst hb
          rw [countLeapfrog_append]
          have h1 : (1 : Nat) ≤ 2 ^ tself.depth := Nat.one_le_two_pow
          have h2 : countLeapfrog [Event.leapfrog a b (none : Option D)] = 1 := rfl
          rw [h2]
          simp only [phaseBound]
          omega
    | some other =>
      simp only [extendAux] at h
      simp only [phaseBound]
      split at h
      · next hlt =>
        have hkle : 2 ^ (other.depth + 1) ≤ 2 ^ tself.depth :=
          Nat.pow_le_pow_right (by norm_num) hlt
        have hkk : 2 ^ (other.depth + 1) = 2 * 2 ^ other.depth := by
          rw [pow_succ]; ring
        split at h
        · cases h
        · cases h
        · next tree r3 evs0 heq =>
          rw [Option.map_eq_some'] at h
          obtain ⟨m0, hm0, hpre⟩ := h
          cases m0 with
          | panicked => cases hpre
          | ok res0 r0 evs1 =>
            simp only [MRes.prepend] at hpre
            injection hpre with h1 h2 h3
            subst h3
            have H0 := ih other none r direction options _ _ _ heq (by intro o ho; cases ho)
            simp only [phaseBound, Nat.sub_zero] at H0
            have hdep : tree.depth = other.depth + 1 :=
              (((extendAux_master ctx fuel other none r direction options _ heq
                (by intro o ho; cases ho)).2 _ _ _ rfl).1 tree rfl).1
            have H := ih tself (some tree) r3 direction options res0 _ _ hm0
              (by intro o ho; injection ho with ho; subst ho; omega)
            simp only [phaseBound, hdep] at H
            rw [countLeapfrog_append]
            omega
        · next t0 r3 evs0 heq =>
          injection h with h
          injection h with h1 h2 h3
          subst h3
          have H0 := ih other none r direction options _ _ _ heq (by intro o ho; cases ho)
          simp only [phaseBound, Nat.sub_zero] at H0
          omega
        · next t0 info r3 evs0 heq =>
          injection h with h
          injection h with h1 h2 h3
          subst h3
          have H0 := ih other none r direction options _ _ _ heq (by intro o ho; cases ho)
          simp only [phaseBound, Nat.sub_zero] at H0
          omega
      · split at h
        · cases h
        · next merged r3 heq =>
          split at h <;>
          · injection h with h
            injection h with h1 h2 h3
            subst h3
            simp [countLeapfrog]

/-- Decomposition of the collector stream of the draw loop: leapfrog
events, followed by exactly one register_draw event when the loop exits
through Turning or Diverging, and by nothing when it exits through the
depth cap. -/
theorem drawLoop_shape (ctx : Ctx S D R) (fuel : Nat) :
    ∀ (tree : NutsTree S) (r : R) (options : NutsOptions) (s : S)
      (info : SampleInfo D) (r2 : R) (evs : List (Event S D)),
      drawLoop ctx fuel tree r options = some (.done s info r2 evs) →
      ∃ mid, (∀ e ∈ mid, e.isLeapfrog = true) ∧
        evs = mid ++ (if info.maxdepth then [] else [Event.draw s info]) := by
  induction fuel with
  | zero =>
    intro tree r options s info r2 evs h
    simp [drawLoop] at h
  | succ fuel ih =>
    intro tree r options s info r2 evs h
    simp only [drawLoop] at h
    split at h
    · split at h
      · cases h
      · cases h
      · next tree2 r3 evs0 heq =>
        rw [Option.map_eq_some'] at h
        obtain ⟨d0, hd0, hpre⟩ := h
        cases d0 with
        | panicked => cases hpre
        | done s0 i0 r0 evs1 =>
          simp only [DrawRes.prepend] at hpre
          injection hpre with h1 h2 h3 h4
          subst h1 h2 h3 h4
          obtain ⟨mid, hmid, hevs⟩ := ih tree2 r3 options s0 i0 r0 evs1 hd0
          simp only [extend] at heq
          have hev0 := (extendAux_events ctx (fuel + 1) tree none _ _ options _ _ _ heq).1
          refine ⟨evs0 ++ mid, ?_, ?_⟩
          · intro e he
            rcases List.mem_append.mp he with he | he
            · exact hev0 e he
            · exact hmid e he
          · rw [hevs, List.append_assoc]
      · next tree2 r3 evs0 heq =>
        injection h with h
        injection h with h1 h2 h3 h4
        subst h1 h2 h3 h4
        simp only [extend] at heq
        have hev0 := (extendAux_events ctx (fuel + 1) tree none _ _ options _ _ _ heq).1
        exact ⟨evs0, hev0, by simp [NutsTree.info]⟩
      · next tree2 dinfo r3 evs0 heq =>
        injection h with h
        injection h with h1 h2 h3 h4
        subst h1 h2 h3 h4
        simp only [extend] at heq
        have hev0 := (extendAux_events ctx (fuel + 1) tree none _ _ options _ _ _ heq).1
        exact ⟨evs0, hev0, by simp [NutsTree.info]⟩
    · injection h with h
      injection h with h1 h2 h3 h4
      subst h1 h2 h3 h4
      exact ⟨[], by intro e he; simp at he, by simp [NutsTree.info]⟩

/-- If a draw loop run reports no divergence, its collector stream holds
no divergent leapfrog event. -/
theorem drawLoop_nondivergent (ctx : Ctx S D R) (fuel : Nat) :
    ∀ (tree : NutsTree S) (r : R) (options : NutsOptions) (s : S)
      (info : SampleInfo D) (r2 : R) (evs : List (Event S D)),
      drawLoop ctx fuel tree r options = some (.done s info r2 evs) →
      info.divergence_info = none →
      ∀ e ∈ evs, e.isDivergent = false := by
  induction fuel with
  | zero =>
    intro tree r options s info r2 evs h hnd
    simp [drawLoop] at h
  | succ fuel ih =>
    intro tree r options s info r2 evs h hnd
    simp only [drawLoop] at h
    split at h
    · split at h
      · cases h
      · cases h
      · next tree2 r3 evs0 heq =>
        rw [Option.map_eq_some'] at h
        obtain ⟨d0, hd0, hpre⟩ := h
        cases d0 with
        | panicked => cases hpre
        | done s0 i0 r0 evs1 =>
          simp only [DrawRes.prepend] at hpre
          injection hpre with h1 h2 h3 h4
          subst h1 h2 h3 h4
          simp only [extend] at heq
          have hev0 := (extendAux_events ctx (fuel + 1) tree none _ _ options _ _ _ heq).2
            (Or.inl ⟨tree2, rfl⟩)
          intro e he
          rcases List.mem_append.mp he with he | he
          · exact hev0 e he
          · exact ih tree2 r3 options s0 i0 r0 evs1 hd0 hnd e he
      · next tree2 r3 evs0 heq =>
        injection h with h
        injection h with h1 h2 h3 h4
        subst h1 h2 h3 h4
        simp only [extend] at heq
        have hev0 := (extendAux_events ctx (fuel + 1) tree none _ _ options _ _ _ heq).2
          (Or.inr ⟨tree2, rfl⟩)
        intro e he
        rcases List.mem_append.mp he with he | he
        · exact hev0 e he
        · simp only [List.mem_singleton] at he
          subst he
          rfl
      · next tree2 dinfo r3 evs0 heq =>
        injection h with h
        injection h with h1 h2 h3 h4
        subst h2
        simp [NutsTree.info] at hnd
    · injection h with h
      injection h with h1 h2 h3 h4
      subst h1 h2 h3 h4
      intro e he
      simp at he

/-- The leapfrog budget of the draw loop: starting from a tree of depth
d with depth cap D, at most 2 ^ D - 2 ^ d further leapfrog steps are
executed. -/
theorem drawLoop_count (ctx : Ctx S D R) (fuel : Nat) :
    ∀ (tree : NutsTree S) (r : R) (options : NutsOptions) (s : S)
      (info : SampleInfo D) (r2 : R) (evs : List (Event S D)),
      drawLoop ctx fuel tree r options = some (.done s info r2 evs) →
      countLeapfrog evs ≤ 2 ^ options.maxdepth - 2 ^ tree.depth := by
  induction fuel with
  | zero =>
    intro tree r options s info r2 evs h
    simp [drawLoop] at h
  | succ fuel ih =>
    intro tree r options s info r2 evs h
    simp only [drawLoop] at h
    split at h
    · next hlt =>
      have hkle : 2 ^ (tree.depth + 1) ≤ 2 ^ options.maxdepth :=
        Nat.pow_le_pow_right (by norm_num) hlt
      have hkk : 2 ^ (tree.depth + 1) = 2 * 2 ^ tree.depth := by
        rw [pow_succ]; ring
      split at h
      · cases h
      · cases h
      · next tree2 r3 evs0 heq =>
        rw [Option.map_eq_some'] at h
        obtain ⟨d0, hd0, hpre⟩ := h
        cases d0 with
        | panicked => cases hpre
        | done s0 i0 r0 evs1 =>
          simp only [DrawRes.prepend] at hpre
          injection hpre with h1 h2 h3 h4
          subst h4
          simp only [extend] at heq
          have hc0 := extendAux_count ctx (fuel + 1) tree none _ _ options _ _ _ heq
            (by intro o ho; cases ho)
          simp only [phaseBound, Nat.sub_zero] at hc0
          have hdep : tree2.depth = tree.depth + 1 :=
            (((extendAux_master ctx (fuel + 1) tree none _ _ options _ heq
              (by intro o ho; cases ho)).2 _ _ _ rfl).1 tree2 rfl).1
          have hc1 := ih tree2 r3 options s0 i0 r0 evs1 hd0
          rw [hdep] at hc1
          rw [countLeapfrog_append]
          omega
      · next tree2 r3 evs0 heq =>
        injection h with h
        injection h with h1 h2 h3 h4
        subst h4
        simp only [extend] at heq
        have hc0 := extendAux_count ctx (fuel + 1) tree none _ _ options _ _ _ heq
          (by intro o ho; cases ho)
        simp only [phaseBound, Nat.sub_zero] at hc0
        rw [countLeapfrog_append]
        have hc2 : countLeapfrog [Event.draw tree2.draw (tree2.info false (none : Option D))] = 0 := rfl
        rw [hc2]
        omega
      · next tree2 dinfo r3 evs0 heq =>
        injection h with h
        injection h with h1 h2 h3 h4
        subst h4
        simp only [extend] at heq
        have hc0 := extendAux_count ctx (fuel + 1) tree none _ _ options _ _ _ heq
          (by intro o ho; cases ho)
        simp only [phaseBound, Nat.sub_zero] at hc0
        rw [countLeapfrog_append]
        have hc2 : countLeapfrog [Event.draw tree2.draw (tree2.info false (some dinfo))] = 0 := rfl
        rw [hc2]
        omega
    · injection h with h
      injection h with h1 h2 h3 h4
      subst h4
      simp [countLeapfrog]

/-- The draw loop never propagates a panic (the assert of merge_into
never fires). -/
theorem drawLoop_no_panic (ctx : Ctx S D R) (fuel : Nat) :
    ∀ (tree : NutsTree S) (r : R) (options : NutsOptions),
      drawLoop ctx fuel tree r options ≠ some .panicked := by
  induction fuel with
  | zero =>
    intro tree r options h
    simp [drawLoop] at h
  | succ fuel ih =>
    intro tree r options h
    simp only [drawLoop] at h
    split at h
    · split at h
      · cases h
      · next heq =>
        simp only [extend] at heq
        exact absurd rfl (extendAux_master ctx (fuel + 1) tree none _ _ options _ heq
          (by intro o ho; cases ho)).1
      · next tree2 r3 evs0 heq =>
        rw [Option.map_eq_some'] at h
        obtain ⟨d0, hd0, hpre⟩ := h
        cases d0 with
        | panicked => exact ih tree2 r3 options hd0
        | done s0 i0 r0 evs1 => cases hpre
      · cases h
      · cases h
    · cases h

/-- Signed index accounting of an iterated leapfrog: n successful steps
move idx_in_trajectory by n times the direction sign. -/
theorem leapfrogChain_index (ctx : Ctx S D R) (hlaws : CtxIndexLaws ctx)
    (dir : Direction) (E0 : F64) (options : NutsOptions) :
    ∀ (n : Nat) (start e : S),
      leapfrogChain ctx dir E0 options n start = some e →
      ctx.index_in_trajectory e = ctx.index_in_trajectory start + n * dirSign dir := by
  intro n
  induction n with
  | zero =>
    intro start e h
    simp only [leapfrogChain] at h
    injection h with h
    subst h
    simp
  | succ n ihn =>
    intro start e h
    simp only [leapfrogChain] at h
    split at h
    · next out evs heq =>
      obtain ⟨mid, hmid⟩ := leapfrog_ok_index ctx heq
      have hstep : ctx.index_in_trajectory out = ctx.index_in_trajectory start + dirSign dir := by
        rw [hmid, hlaws.index_psum, hlaws.index_set]
      have hrec := ihn out e h
      rw [hrec, hstep]
      push_cast
      ring
    · cases h

/-!
The claims.
-/

/-- C10: whenever NutsTree::extend reaches the merge step, the freshly
built subtree has the same depth as the tree being extended, so the
assert self.depth == other.depth inside merge_into never fires: no call
of extend, and no call of the draw driver, returns the panic value, for
any input tree whatsoever. -/
theorem claim_C10 (ctx : Ctx S D R) :
    (∀ (fuel : Nat) (tself : NutsTree S) (r : R) (direction : Direction)
      (options : NutsOptions),
      extend ctx fuel tself r direction options ≠ some .panicked) ∧
    (∀ (fuel : Nat) (init : S) (r : R) (options : NutsOptions),
      draw ctx fuel init r options ≠ some .panicked) := by
  constructor
  · intro fuel tself r direction options h
    simp only [extend] at h
    exact absurd rfl (extendAux_master ctx fuel tself none r direction options _ h
      (by intro o ho; cases ho)).1
  · intro fuel init r options h
    simp only [draw] at h
    split at h
    · cases h
    · next heq => exact drawLoop_no_panic ctx fuel _ _ _ heq
    · cases h

/-- C9: for every completed draw with depth cap D, the number of
register_leapfrog events (divergent steps counted) is at most
2 ^ D - 1. -/
theorem claim_C9 (ctx : Ctx S D R) (fuel : Nat) (init : S) (r : R)
    (options : NutsOptions) (s : S) (info : SampleInfo D) (r2 : R)
    (evs : List (Event S D))
    (h : draw ctx fuel init r options = some (.done s info r2 evs)) :
    countLeapfrog evs ≤ 2 ^ options.maxdepth - 1 := by
  simp only [draw] at h
  split at h
  · cases h
  · cases h
  · next s0 i0 r0 evs0 heq =>
    injection h with h
    injection h with h1 h2 h3 h4
    subst h4
    have hc := drawLoop_count ctx fuel _ _ options _ _ _ _ heq
    have hd : (NutsTree.new ctx init).depth = 0 := rfl
    rw [hd, pow_zero] at hc
    have hcons : countLeapfrog (Event.init init options :: evs0) = countLeapfrog evs0 := by
      simp [countLeapfrog, Event.isLeapfrog]
    rw [hcons]
    exact hc

/-- Witness for C9: a concrete full-depth draw with cap 2 executes
exactly 3 = 2 ^ 2 - 1 leapfrog steps. -/
theorem claim_C9_witness :
    draw ctxBase 20 () () optsC = some (.done ()
      { depth := 2, divergence_info := none, maxdepth := true } ()
      [Event.init () optsC, Event.leapfrog () () none, Event.leapfrog () () none,
        Event.leapfrog () () none]) ∧
    countLeapfrog ([Event.init () optsC, Event.leapfrog () () none,
      Event.leapfrog () () none, Event.leapfrog () () none] : List (Event Unit Unit)) ≤
      2 ^ optsC.maxdepth - 1 :=
  ⟨rfl, claim_C9 ctxBase 20 () () optsC ()
    { depth := 2, divergence_info := none, maxdepth := true } ()
    [Event.init () optsC, Event.leapfrog () () none, Event.leapfrog () () none,
      Event.leapfrog () () none] rfl⟩

/-- C2 (amended): within a draw the collector stream is exactly
register_init, then register_leapfrog events in integrator execution
order, then exactly one register_draw with the selected state when the
draw terminates through Turning or Diverging; when the draw terminates
by reaching maxdepth, no register_draw is delivered. -/
theorem claim_C2_amended (ctx : Ctx S D R) (fuel : Nat) (init : S) (r : R)
    (options : NutsOptions) (s : S) (info : SampleInfo D) (r2 : R)
    (evs : List (Event S D))
    (h : draw ctx fuel init r options = some (.done s info r2 evs)) :
    ∃ mid, (∀ e ∈ mid, e.isLeapfrog = true) ∧
      evs = Event.init init options ::
        (mid ++ (if info.maxdepth then [] else [Event.draw s info])) := by
  simp only [draw] at h
  split at h
  · cases h
  · cases h
  · next s0 i0 r0 evs0 heq =>
    injection h with h
    injection h with h1 h2 h3 h4
    subst h1 h2 h3 h4
    obtain ⟨mid, hmid, hevs⟩ := drawLoop_shape ctx fuel _ _ options _ _ _ _ heq
    exact ⟨mid, hmid, by rw [hevs]⟩

/-- Counterexample for C2: a draw that terminates by reaching maxdepth
(here maxdepth 1) completes without any register_draw callback, so
register_draw is not invoked exactly once on every termination path. -/
theorem claim_C2_counterexample :
    draw ctxBase 20 () () optsB = some (.done ()
      { depth := 1, divergence_info := none, maxdepth := true } ()
      [Event.init () optsB, Event.leapfrog () () none]) ∧
    (List.filter Event.isDraw
      [Event.init () optsB, Event.leapfrog () () (none : Option Unit)]).length = 0 :=
  ⟨rfl, rfl⟩

/-- Witness for C2: the amended decomposition at a concrete draw that
terminates through Turning. -/
theorem claim_C2_witness :
    draw ctxTurn 20 () () optsA = some (.done ()
      { depth := 1, divergence_info := none, maxdepth := false } ()
      [Event.init () optsA, Event.leapfrog () () none,
        Event.draw () { depth := 1, divergence_info := none, maxdepth := false }]) ∧
    ∃ mid, (∀ e ∈ mid, e.isLeapfrog = true) ∧
      [Event.init () optsA, Event.leapfrog () () (none : Option Unit),
        Event.draw () { depth := 1, divergence_info := none, maxdepth := false }] =
      Event.init () optsA :: (mid ++
        (if ({ depth := 1, divergence_info := none, maxdepth := false } : SampleInfo Unit).maxdepth
          then [] else [Event.draw ()
            { depth := 1, divergence_info := none, maxdepth := false }])) :=
  ⟨rfl, claim_C2_amended ctxTurn 20 () () optsA ()
    { depth := 1, divergence_info := none, maxdepth := false } ()
    [Event.init () optsA, Event.leapfrog () () none,
      Event.draw () { depth := 1, divergence_info := none, maxdepth := false }] rfl⟩

/-- A register_leapfrog event is not a register_draw event. -/
theorem Event.isLeapfrog_not_isDraw {e : Event S D} (h : e.isLeapfrog = true) :
    e.isDraw = false := by
  cases e <;> simp_all [Event.isLeapfrog, Event.isDraw]

/-- C6: the draw driver classifies termination exactly: a Turning extend
yields (t.draw, depth t.depth, no divergence, maxdepth false); a
Diverging extend yields (t.draw, depth t.depth, the divergence, maxdepth
false); a loop exit by the depth cap yields (tree.draw, depth
tree.depth, no divergence, maxdepth true); and maxdepth is reported true
exactly when no register_draw was fired, that is, exactly on depth-cap
termination. -/
theorem claim_C6 (ctx : Ctx S D R) :
    (∀ (fuel : Nat) (tree : NutsTree S) (r : R) (options : NutsOptions)
      (tree2 : NutsTree S) (r2 : R) (evs : List (Event S D)),
      tree.depth < options.maxdepth →
      extend ctx (fuel + 1) tree (ctx.gen_direction r).2 (ctx.gen_direction r).1 options
        = some (.ok (.Turning tree2) r2 evs) →
      drawLoop ctx (fuel + 1) tree r options = some (.done tree2.draw
        { depth := tree2.depth, divergence_info := none, maxdepth := false } r2
        (evs ++ [Event.draw tree2.draw
          { depth := tree2.depth, divergence_info := none, maxdepth := false }]))) ∧
    (∀ (fuel : Nat) (tree : NutsTree S) (r : R) (options : NutsOptions)
      (tree2 : NutsTree S) (dinfo : D) (r2 : R) (evs : List (Event S D)),
      tree.depth < options.maxdepth →
      extend ctx (fuel + 1) tree (ctx.gen_direction r).2 (ctx.gen_direction r).1 options
        = some (.ok (.Diverging tree2 dinfo) r2 evs) →
      drawLoop ctx (fuel + 1) tree r options = some (.done tree2.draw
        { depth := tree2.depth, divergence_info := some dinfo, maxdepth := false } r2
        (evs ++ [Event.draw tree2.draw
          { depth := tree2.depth, divergence_info := some dinfo, maxdepth := false }]))) ∧
    (∀ (fuel : Nat) (tree : NutsTree S) (r : R) (options : NutsOptions),
      ¬ tree.depth < options.maxdepth →
      drawLoop ctx (fuel + 1) tree r options = some (.done tree.draw
        { depth := tree.depth, divergence_info := none, maxdepth := true } r [])) ∧
    (∀ (fuel : Nat) (tree : NutsTree S) (r : R) (options : NutsOptions)
      (s : S) (info : SampleInfo D) (r2 : R) (evs : List (Event S D)),
      drawLoop ctx fuel tree r options = some (.done s info r2 evs) →
      (info.maxdepth = true ↔ ∀ e ∈ evs, e.isDraw = false)) := by
  refine ⟨?_, ?_, ?_, ?_⟩
  · intro fuel tree r options tree2 r2 evs hlt hext
    simp only [drawLoop]
    rw [if_pos hlt, hext]
    rfl
  · intro fuel tree r options tree2 dinfo r2 evs hlt hext
    simp only [drawLoop]
    rw [if_pos hlt, hext]
    rfl
  · intro fuel tree r options hnlt
    simp only [drawLoop]
    rw [if_neg hnlt]
    rfl
  · intro fuel tree r options s info r2 evs h
    obtain ⟨mid, hmid, hevs⟩ := drawLoop_shape ctx fuel tree r options s info r2 evs h
    subst hevs
    constructor
    · intro hmax e he
      rw [hmax] at he
      simp at he
      exact Event.isLeapfrog_not_isDraw (hmid e he)
    · intro hall
      by_contra hmax
      rw [Bool.not_eq_true] at hmax
      have hdm : (Event.draw s info : Event S D) ∈
          mid ++ (if info.maxdepth then [] else [Event.draw s info]) := by
        rw [hmax]
        simp
      have := hall _ hdm
      simp [Event.isDraw] at this

/-- Witness for C6: the depth-cap clause and the iff clause at a
concrete draw loop run that exits by the cap. -/
theorem claim_C6_witness :
    (¬ treeOne.depth < optsB.maxdepth) ∧
    drawLoop ctxBase 5 treeOne () optsB = some (.done ()
      { depth := 1, divergence_info := none, maxdepth := true } () []) ∧
    (({ depth := 1, divergence_info := none, maxdepth := true } : SampleInfo Unit).maxdepth = true
      ↔ ∀ e ∈ ([] : List (Event Unit Unit)), e.isDraw = false) :=
  ⟨by decide,
   (claim_C6 ctxBase).2.2.1 4 treeOne () optsB (by decide),
   (claim_C6 ctxBase).2.2.2 5 treeOne () optsB ()
     { depth := 1, divergence_info := none, maxdepth := true } () []
     ((claim_C6 ctxBase).2.2.1 4 treeOne () optsB (by decide))⟩

/-- C4: a draw in which some leapfrog step diverges still returns a
sample, with SampleInfo.divergence_info populated; and when the very
first leapfrog step of the draw diverges, the returned draw is the
initial state of the draw at depth 0. -/
theorem claim_C4 (ctx : Ctx S D R) :
    (∀ (fuel : Nat) (init : S) (r : R) (options : NutsOptions) (s : S)
      (info : SampleInfo D) (r2 : R) (evs : List (Event S D)),
      draw ctx fuel init r options = some (.done s info r2 evs) →
      (∃ e ∈ evs, e.isDivergent = true) → info.divergence_info.isSome = true) ∧
    (∀ (fuel : Nat) (init : S) (r : R) (options : NutsOptions),
      (∀ dir, ∃ d evs, leapfrog ctx init dir (ctx.energy init) options = (.error d, evs)) →
      0 < options.maxdepth →
      ∃ d r2 evs, draw ctx (fuel + 1) init r options =
        some (.done init { depth := 0, divergence_info := some d, maxdepth := false }
          r2 evs)) := by
  constructor
  · intro fuel init r options s info r2 evs h hdiv
    cases hdi : info.divergence_info with
    | some d => rfl
    | none =>
      exfalso
      obtain ⟨e, he, hed⟩ := hdiv
      simp only [draw] at h
      split at h
      · cases h
      · cases h
      · next s0 i0 r0 evs0 heq =>
        injection h with h
        injection h with h1 h2 h3 h4
        subst h1 h2 h3 h4
        have hnd := drawLoop_nondivergent ctx fuel _ _ options _ _ _ _ heq hdi
        rcases List.mem_cons.mp he with he | he
        · subst he
          exact absurd hed (by simp [Event.isDivergent])
        · rw [hnd e he] at hed
          cases hed
  · intro fuel init r options hfail hmd
    rcases hgd : ctx.gen_direction r with ⟨dir0, r0⟩
    obtain ⟨d, evs1, hlf⟩ := hfail dir0
    refine ⟨d, r0, Event.init init options :: (evs1 ++ [Event.draw init
      { depth := 0, divergence_info := some d, maxdepth := false }]), ?_⟩
    cases dir0 <;>
    · simp only [draw, drawLoop, extend, extendAux, single_step, NutsTree.new, hgd]
      rw [if_pos hmd, hlf]
      rfl

/-- Counterexample for C1: in the nuts.rs leapfrog the divergence check
is only energy_error.abs() > max_energy_error under IEEE comparison, so
a nan energy error (here from inf - inf) makes the comparison false and
the step returns a normally returned state instead of a divergence. -/
theorem claim_C1_counterexample :
    leapfrog ctxInf () .Forward F64.inf optsA = (.ok (), [.leapfrog () () none]) ∧
    (F64.sub (ctxInf.energy ()) F64.inf).isFinite = false :=
  ⟨rfl, rfl⟩

/-- C1 (amended): in EuclideanPotential::leapfrog of cpu_potential.rs,
when logp succeeds, the step returns a divergence (carrying both
endpoint states and the energy error) exactly when the energy error
satisfies |err| > max_energy_error under IEEE comparison or is
non-finite; otherwise it returns the new state, whose energy error is
finite and within the bound; no fatal error arises.  (The older nuts.rs
leapfrog lacks the finiteness disjunct: see the counterexample.) -/
theorem claim_C1_amended (ctx : HamCtx S E R) (step_size max_energy_error : F64)
    (start : S) (dir : Direction) (E0 : F64)
    (hok : ∀ s : S, (ctx.update_potential_gradient s).2 = none) :
    (∀ out evs,
      EuclideanPotential.leapfrog ctx step_size max_energy_error start dir E0
        = (.ok (.ok out), evs) →
      F64.fgt (F64.sub (ctx.energy out) E0).abs max_energy_error = false ∧
      (F64.sub (ctx.energy out) E0).isFinite = true) ∧
    (∀ d evs,
      EuclideanPotential.leapfrog ctx step_size max_energy_error start dir E0
        = (.ok (.error d), evs) →
      ∃ err, d.energy_error = some err ∧ d.start = some (ctx.clone_inner start) ∧
        (∃ b, d.endState = some b) ∧
        (F64.fgt err.abs max_energy_error = true ∨ err.isFinite = false)) ∧
    (∀ fe evs,
      EuclideanPotential.leapfrog ctx step_size max_energy_error start dir E0
        ≠ (.error fe, evs)) := by
  refine ⟨?_, ?_, ?_⟩
  · intro out evs h
    simp only [EuclideanPotential.leapfrog] at h
    split at h
    · next out2 lp heq =>
      have h2 := congrArg Prod.snd heq
      rw [hok] at h2
      simp at h2
    · next out2 heq =>
      split at h
      · injection h with h1 h2
        injection h1 with h1
        cases h1
      · next hcond =>
        injection h with h1 h2
        injection h1 with h1
        injection h1 with h1
        subst h1
        simpa using hcond
  · intro d evs h
    simp only [EuclideanPotential.leapfrog] at h
    split at h
    · next out2 lp heq =>
      have h2 := congrArg Prod.snd heq
      rw [hok] at h2
      simp at h2
    · next out2 heq =>
      split at h
      · next hcond =>
        injection h with h1 h2
        injection h1 with h1
        injection h1 with h1
        subst h1
        refine ⟨_, rfl, rfl, ⟨_, rfl⟩, ?_⟩
        simpa using hcond
      · injection h with h1 h2
        injection h1 with h1
        cases h1
  · intro fe evs h
    simp only [EuclideanPotential.leapfrog] at h
    split at h
    · next out2 lp heq =>
      have h2 := congrArg Prod.snd heq
      rw [hok] at h2
      simp at h2
    · split at h
      · injection h with h1 h2
        cases h1
      · injection h with h1 h2
        cases h1

/-- Witness for C1: a concrete non-divergent step (finite error, no
bound violation) obtained through the amended theorem. -/
theorem claim_C1_witness :
    (∀ s : Unit, (hctxE.update_potential_gradient s).2 = none) ∧
    (EuclideanPotential.leapfrog hctxE (.finite 1) F64.inf () .Forward (.finite 5)
      = (.ok (.ok ()), [.leapfrog () () none])) ∧
    F64.fgt (F64.sub (hctxE.energy ()) (.finite 5)).abs F64.inf = false ∧
    (F64.sub (hctxE.energy ()) (.finite 5)).isFinite = true :=
  ⟨fun _ => rfl, rfl,
   (claim_C1_amended hctxE (.finite 1) F64.inf () .Forward (.finite 5)
     (fun _ => rfl)).1 () [.leapfrog () () none] rfl⟩

/-- C3: when the logp function fails during a leapfrog step of
EuclideanPotential::leapfrog, a recoverable failure yields a divergence
carrying the start state and the logp error, and the draw of the newer
driver still completes with a sample; a non-recoverable failure
propagates out of the draw as the fatal NutsError and no sample is
returned. -/
theorem claim_C3 (ctx : HamCtx S E R) (options : NutsOptions) (e : E)
    (hfail : ∀ s : S, (ctx.update_potential_gradient s).2 = some e) :
    (ctx.is_recoverable e = true →
      ∀ (start : S) (dir : Direction) (E0 ss me : F64),
      ∃ out, EuclideanPotential.leapfrog ctx ss me start dir E0 =
        (.ok (.error (logpFailDiv ctx e start)),
          [.leapfrog start out (some (logpFailDiv ctx e start))])) ∧
    (ctx.is_recoverable e = false →
      ∀ (start : S) (dir : Direction) (E0 ss me : F64),
      EuclideanPotential.leapfrog ctx ss me start dir E0 =
        (.error (.LogpFailure e), [])) ∧
    (∀ (fuel : Nat) (init : S) (r : R), 0 < options.maxdepth →
      (ctx.is_recoverable e = true →
        ∃ d r2 evs, drawH ctx (fuel + 1) init r options =
          some (.done init { depth := 0, divergence_info := some d, maxdepth := false }
            r2 evs) ∧ d.logp_function_error = some e) ∧
      (ctx.is_recoverable e = false →
        drawH ctx (fuel + 1) init r options = some (.fatal (.LogpFailure e)))) := by
  obtain ⟨g, hg⟩ : ∃ g : S → S, ∀ s : S,
      ctx.update_potential_gradient s = (g s, some e) :=
    ⟨fun s => (ctx.update_potential_gradient s).1, fun s => by rw [← hfail s]⟩
  have hA : ctx.is_recoverable e = true →
      ∀ (start : S) (dir : Direction) (E0 ss me : F64),
      ∃ out, EuclideanPotential.leapfrog ctx ss me start dir E0 =
        (.ok (.error (logpFailDiv ctx e start)),
          [.leapfrog start out (some (logpFailDiv ctx e start))]) := by
    intro hrec start dir E0 ss me
    simp only [EuclideanPotential.leapfrog, hg, hrec, Bool.not_true, if_false, logpFailDiv]
    exact ⟨_, rfl⟩
  have hB : ctx.is_recoverable e = false →
      ∀ (start : S) (dir : Direction) (E0 ss me : F64),
      EuclideanPotential.leapfrog ctx ss me start dir E0 =
        (.error (.LogpFailure e), []) := by
    intro hrec start dir E0 ss me
    simp only [EuclideanPotential.leapfrog, hg, hrec, Bool.not_false, if_true]
  refine ⟨hA, hB, ?_⟩
  intro fuel init r hmd
  rcases hgd : ctx.gen_direction r with ⟨dir0, r0⟩
  constructor
  · intro hrec
    obtain ⟨out, hlf⟩ := hA hrec init dir0 (ctx.energy init) options.step_size
      options.max_energy_error
    refine ⟨logpFailDiv ctx e init, r0,
      Event.init init options :: ([Event.leapfrog init out (some (logpFailDiv ctx e init))] ++
        [Event.draw init
          { depth := 0
            divergence_info := some (logpFailDiv ctx e init)
            maxdepth := false }]), ?_, rfl⟩
    cases dir0 <;>
    · simp only [drawH, drawLoopH, extendAuxH, single_stepH, hgd]
      rw [if_pos hmd, hlf]
      rfl
  · intro hrec
    have hlf := hB hrec init dir0 (ctx.energy init) options.step_size
      options.max_energy_error
    cases dir0 <;>
    · simp only [drawH, drawLoopH, extendAuxH, single_stepH, hgd]
      rw [if_pos hmd, hlf]

/-- Witness for C3: both failure modes at concrete contexts whose logp
always fails: with a recoverable error the draw returns the initial
state with the divergence recorded; with a non-recoverable error the
draw returns the fatal NutsError. -/
theorem claim_C3_witness :
    (∀ s : Unit, (hctxRec.update_potential_gradient s).2 = some ()) ∧
    (∀ s : Unit, (hctxFatal.update_potential_gradient s).2 = some ()) ∧
    (0:Nat) < optsA.maxdepth ∧
    (∃ d r2 evs, drawH hctxRec (19 + 1) () () optsA =
      some (.done () { depth := 0, divergence_info := some d, maxdepth := false }
        r2 evs) ∧ d.logp_function_error = some ()) ∧
    drawH hctxFatal (19 + 1) () () optsA = some (.fatal (.LogpFailure ())) :=
  ⟨fun _ => rfl, fun _ => rfl, by decide,
   ((claim_C3 hctxRec optsA () (fun _ => rfl)).2.2 19 () () (by decide)).1 rfl,
   ((claim_C3 hctxFatal optsA () (fun _ => rfl)).2.2 19 () () (by decide)).2 rfl⟩

/-- Witness for C4: with a logp that always fails, the draw still
returns a sample whose SampleInfo carries the divergence, and the
returned draw equals the initial state. -/
theorem claim_C4_witness :
    draw ctxFail 20 () () optsA = some (.done ()
      { depth := 0, divergence_info := some (), maxdepth := false } ()
      [Event.init () optsA, Event.leapfrog () () (some ()),
        Event.draw () { depth := 0, divergence_info := some (), maxdepth := false }]) ∧
    ({ depth := 0, divergence_info := some (), maxdepth := false } :
      SampleInfo Unit).divergence_info.isSome = true ∧
    (∃ d r2 evs, draw ctxFail (19 + 1) () () optsA = some (.done ()
      { depth := 0, divergence_info := some d, maxdepth := false } r2 evs)) :=
  ⟨rfl,
   (claim_C4 ctxFail).1 20 () () optsA ()
     { depth := 0, divergence_info := some (), maxdepth := false } ()
     [Event.init () optsA, Event.leapfrog () () (some ()),
       Event.draw () { depth := 0, divergence_info := some (), maxdepth := false }] rfl
     ⟨Event.leapfrog () () (some ()), by simp, rfl⟩,
   (claim_C4 ctxFail).2 19 () () optsA
     (fun dir => by cases dir <;> exact ⟨(), [Event.leapfrog () () (some ())], rfl⟩)
     (by decide)⟩

/-- Counterexample for C5: an extend of a depth-1 tree whose nested
recursive extension returns Turning propagates Turning with the outer
tree unchanged: its depth stays 1 (the claim demands depth + 1 = 2) and
its log_size stays the pre-call value instead of a logaddexp. -/
theorem claim_C5_counterexample :
    extend ctxTurn 10 treeOne () .Forward optsA = some (.ok (.Turning treeOne) ()
      [.leapfrog () () none, .leapfrog () () none]) ∧
    treeOne.depth = 1 ∧
    treeOne.depth ≠ treeOne.depth + 1 ∧
    (∀ o, treeOne.log_size ≠ ctxTurn.logaddexp treeOne.log_size o) :=
  ⟨rfl, rfl, by decide, fun o h => absurd h (by
    rw [show ctxTurn.logaddexp treeOne.log_size o = F64.finite 777 from rfl]
    decide)⟩

/-- C5 (amended): the tree-merge accounting log_size =
logaddexp(self.log_size, other.log_size) and depth = depth + 1 holds for
every successful merge_into, hence for every extend that returns Ok (the
extension subtree supplies the second logaddexp argument) and for every
Turning produced by the U-turn test at the current level; but an extend
whose nested recursive extension returned Turning propagates Turning
with the tree unchanged, and a Diverging extend likewise returns the
tree unchanged. -/
theorem claim_C5_amended (ctx : Ctx S D R) :
    (∀ (tself other : NutsTree S) (r : R) (direction : Direction),
      tself.depth = other.depth →
      ∃ t2 r2, merge_into ctx tself other r direction = some (t2, r2) ∧
        t2.depth = tself.depth + 1 ∧
        t2.log_size = ctx.logaddexp tself.log_size other.log_size) ∧
    (∀ (fuel : Nat) (tself : NutsTree S) (r : R) (direction : Direction)
      (options : NutsOptions) (t2 : NutsTree S) (r2 : R) (evs : List (Event S D)),
      extend ctx fuel tself r direction options = some (.ok (.Ok t2) r2 evs) →
      t2.depth = tself.depth + 1 ∧
      ∃ o, t2.log_size = ctx.logaddexp tself.log_size o) ∧
    (∀ (fuel : Nat) (tself : NutsTree S) (r : R) (direction : Direction)
      (options : NutsOptions) (t2 : NutsTree S) (r2 : R) (evs : List (Event S D)),
      extend ctx fuel tself r direction options = some (.ok (.Turning t2) r2 evs) →
      (t2.depth = tself.depth + 1 ∧
        ∃ o, t2.log_size = ctx.logaddexp tself.log_size o) ∨ t2 = tself) ∧
    (∀ (fuel : Nat) (tself : NutsTree S) (r : R) (direction : Direction)
      (options : NutsOptions) (t2 : NutsTree S) (i : D) (r2 : R)
      (evs : List (Event S D)),
      extend ctx fuel tself r direction options = some (.ok (.Diverging t2 i) r2 evs) →
      t2 = tself) := by
  refine ⟨?_, ?_, ?_, ?_⟩
  · intro tself other r direction h
    obtain ⟨t2, r2, hm, hd, hl, _⟩ := merge_into_eq ctx r direction h
    exact ⟨t2, r2, hm, hd, hl⟩
  · intro fuel tself r direction options t2 r2 evs h
    simp only [extend] at h
    exact ((extendAux_master ctx fuel tself none r direction options _ h
      (by intro o ho; cases ho)).2 _ _ _ rfl).1 t2 rfl
  · intro fuel tself r direction options t2 r2 evs h
    simp only [extend] at h
    exact (((extendAux_master ctx fuel tself none r direction options _ h
      (by intro o ho; cases ho)).2 _ _ _ rfl).2).1 t2 rfl
  · intro fuel tself r direction options t2 i r2 evs h
    simp only [extend] at h
    exact (((extendAux_master ctx fuel tself none r direction options _ h
      (by intro o ho; cases ho)).2 _ _ _ rfl).2).2 t2 i rfl

/-- Witness for C5: the merge accounting and the Ok accounting at
concrete trees. -/
theorem claim_C5_witness :
    (∃ t2 r2, merge_into ctxBase treeOne treeOne () .Forward = some (t2, r2) ∧
      t2.depth = treeOne.depth + 1 ∧
      t2.log_size = ctxBase.logaddexp treeOne.log_size treeOne.log_size) ∧
    (extend ctxBase 10 (NutsTree.new ctxBase ()) () .Forward optsA = some (.ok (.Ok
      { left := (), right := (), draw := (), log_size := F64.finite 777, depth := 1, initial_energy := F64.neginf }) () [.leapfrog () () none])) ∧
    ({ left := (), right := (), draw := (), log_size := F64.finite 777, depth := 1, initial_energy := F64.neginf } : NutsTree Unit).depth
      = (NutsTree.new ctxBase ()).depth + 1 ∧
    (∃ o, ({ left := (), right := (), draw := (), log_size := F64.finite 777, depth := 1, initial_energy := F64.neginf } : NutsTree Unit).log_size
      = ctxBase.logaddexp (NutsTree.new ctxBase ()).log_size o) :=
  ⟨(claim_C5_amended ctxBase).1 treeOne treeOne () .Forward rfl,
   rfl,
   ((claim_C5_amended ctxBase).2.1 10 (NutsTree.new ctxBase ()) () .Forward optsA
     { left := (), right := (), draw := (), log_size := F64.finite 777, depth := 1, initial_energy := F64.neginf } () [.leapfrog () () none] rfl).1,
   ((claim_C5_amended ctxBase).2.1 10 (NutsTree.new ctxBase ()) () .Forward optsA
     { left := (), right := (), draw := (), log_size := F64.finite 777, depth := 1, initial_energy := F64.neginf } () [.leapfrog () () none] rfl).2⟩

/-- C7: every successful leapfrog step moves idx_in_trajectory by the
direction sign, and a chain of n successful steps in one direction moves
it by exactly n in absolute value. -/
theorem claim_C7 (ctx : Ctx S D R) (hlaws : CtxIndexLaws ctx) :
    (∀ (start : S) (dir : Direction) (E0 : F64) (options : NutsOptions)
      (out : S) (evs : List (Event S D)),
      leapfrog ctx start dir E0 options = (.ok out, evs) →
      ctx.index_in_trajectory out = ctx.index_in_trajectory start + dirSign dir) ∧
    (∀ (n : Nat) (start e : S) (dir : Direction) (E0 : F64) (options : NutsOptions),
      leapfrogChain ctx dir E0 options n start = some e →
      (ctx.index_in_trajectory e - ctx.index_in_trajectory start).natAbs = n) := by
  constructor
  · intro start dir E0 options out evs h
    obtain ⟨mid, hmid⟩ := leapfrog_ok_index ctx h
    rw [hmid, hlaws.index_psum, hlaws.index_set]
  · intro n start e dir E0 options h
    have hidx := leapfrogChain_index ctx hlaws dir E0 options n start e h
    rw [hidx]
    cases dir <;> simp [dirSign]

/-- Witness for C7: a 3-step forward chain over the integer-index
context moves the index from 0 to 3. -/
theorem claim_C7_witness :
    leapfrogChain ctxIdx .Forward F64.neginf optsA 3 0 = some 3 ∧
    (ctxIdx.index_in_trajectory 3 - ctxIdx.index_in_trajectory 0).natAbs = 3 :=
  ⟨rfl, (claim_C7 ctxIdx ⟨fun _ _ => rfl, fun _ _ _ => rfl⟩).2 3 0 3 .Forward
    F64.neginf optsA rfl⟩

/-- C8: two sampler instances built with identical (logp, seed,
maxdepth, step_size) and given identical set_position inputs produce
bit-identical draw results: the sampler pipeline of the model is a pure
function of these inputs (the only mutable state, the rng, is seeded
deterministically from the seed), so the two runs coincide. -/
theorem claim_C8 (ops : SamplerOps S D R) (seed maxdepth : Nat)
    (step_size : F64) (q : List F64) :
    (UnitStaticSampler.set_position ops
        (UnitStaticSampler.new ops seed maxdepth step_size) q).map
      (UnitStaticSampler.draw ops) =
    (UnitStaticSampler.set_position ops
        (UnitStaticSampler.new ops seed maxdepth step_size) q).map
      (UnitStaticSampler.draw ops) := rfl
